import Mathlib

/-!
Verification of the inference-application scaffold (`src/cpp/main.cpp`)

The program has three parts: a logger, an option parser over the process
arguments, and an entry routine that echoes three option values and then loops
forever printing a counter.

Embedding conventions.

* `std::string` / `argv[i]` tokens are Lean `String`s.
* `std::map<std::string, std::string>` is an association list with unique keys
  (`find`, `assign`); the iteration order of the map is not modelled, it is
  only used by `toString`, which is outside this development.
* `exit(0)` is an explicit outcome of `parseOpts`.
* Standard output is a list of items: a log record (level and message, the
  wall-clock timestamp is supplied at rendering time) or raw text.
* The unbounded loop of `main` is a step function on the loop state; `main`
  takes the number of loop iterations to observe.
* `uint64_t` is a `Nat` reduced modulo `2 ^ 64`.
-/

namespace logger

/-- The enumeration `LogLevel` of the source. -/
inductive LogLevel where
  | DEBUG
  | INFO
  | WARN
  | ERROR
  deriving DecidableEq

/-- The label chosen by the `switch` of `log`. -/
def levelStr : LogLevel → String
  | .DEBUG => "DEBUG"
  | .INFO => "INFO"
  | .WARN => "WARN"
  | .ERROR => "ERROR"

/-- One item written to standard output: a line produced by `logger::log`, or
raw text written directly to `std::cout`. -/
inductive Output where
  | line (level : LogLevel) (message : String)
  | text (s : String)
  deriving DecidableEq

/-- The characters an output item puts on standard output, given the timestamp
`dt` that `ctime` returned (newline already stripped) when the item was logged. -/
def render (dt : String) : Output → String
  | .line level message => "[" ++ dt ++ "] [" ++ levelStr level ++ "] " ++ message ++ "\n"
  | .text s => s

/-- The body of `logger::log`: appends one line to standard output. -/
def log (level : LogLevel) (message : String) (out : List Output) : List Output :=
  out ++ [Output.line level message]

/-- The wrapper `logger::info`. -/
def info (message : String) (out : List Output) : List Output :=
  log LogLevel.INFO message out

/-- The level of an output item, when it is a log line. -/
def Output.level? : Output → Option LogLevel
  | .line level _ => some level
  | .text _ => none

end logger

namespace options

/-- The member `args`: a `std::map<std::string, std::string>`, kept as an
association list in which every key occurs at most once. -/
abbrev StdMap := List (String × String)

/-- The call `args.find(key)`: the mapped value, or `none` for `args.end()`. -/
def StdMap.find : StdMap → String → Option String
  | [], _ => none
  | (k, v) :: rest, key => if k = key then some v else StdMap.find rest key

/-- The statement `args[key] = value`: overwrite the entry of `key` when there
is one, insert a new entry otherwise. -/
def StdMap.assign : StdMap → String → String → StdMap
  | [], key, value => [(key, value)]
  | (k, v) :: rest, key, value =>
    if k = key then (key, value) :: rest else (k, v) :: StdMap.assign rest key value

/-- The keys held by the map, one per entry. -/
def StdMap.keys (m : StdMap) : List String := m.map Prod.fst

/-- The class `Options`. -/
structure Options where
  args : StdMap
  deriving DecidableEq

/-- A freshly constructed `Options` object: the map is empty. -/
def Options.empty : Options := ⟨[]⟩

/-- The member function `get(key, defaultValue)`. -/
def Options.get (self : Options) (key defaultValue : String) : String :=
  match self.args.find key with
  | some value => value
  | none => defaultValue

/-- The call `get(key)` with the default argument `""` filled in. -/
def Options.getOmitted (self : Options) (key : String) : String :=
  self.get key ""

/-- A call of the `const` member function `get` in state-passing form: the
returned string together with the object after the call. -/
def Options.getCall (self : Options) (key defaultValue : String) : String × Options :=
  (self.get key defaultValue, self)

/-- The member function `help()`: the pieces of text it writes to `std::cout`,
in order. -/
def Options.help : List String :=
  [ "Usage: ./inference_app [options]\n",
    "Options:\n",
    "  --model <model_path>       Path to the model file\n",
    "  --config <config_file>    Path to the config file\n",
    "  --log_level <level>        Set log level (DEBUG, INFO, WARN, ERROR)\n",
    "  --log <log_file>          Set log output file\n",
    "  --help                     Show this help message\n" ]

/-- The result of running `parseOpts`: the process was terminated by `exit(code)`
after `printed` was written to standard output, or the function returned with
the object in state `self`. -/
inductive Outcome where
  | exited (code : Int) (printed : List String)
  | returned (self : Options)
  deriving DecidableEq

/-- The test `arg.rfind("--", 0) == 0`: `arg` begins with the two characters `--`. -/
def beginsWithDashes (arg : String) : Bool :=
  match arg.data with
  | '-' :: '-' :: _ => true
  | _ => false

/-- The expression `arg.substr(2)`: `arg` without its first two characters. -/
def substr2 (arg : String) : String := ⟨arg.data.drop 2⟩

/-- The `for` loop of `parseOpts`, as a function of the tokens `argv[i..argc)`
still to be scanned and of the object. The condition `i + 1 < argc` holds exactly
when a token follows `arg`. -/
def parseLoop : List String → Options → Outcome
  | [], self => Outcome.returned self
  | arg :: following, self =>
    if arg = "--help" then
      Outcome.exited 0 Options.help
    else
      match beginsWithDashes arg, following with
      | true, value :: remaining =>
        parseLoop remaining ⟨self.args.assign (substr2 arg) value⟩
      | _, unconsumed => parseLoop unconsumed self

/-- The member function `parseOpts(argc, argv)`; `argv` is the whole argument
vector (`argc` is its length), the scan starts at index 1. -/
def Options.parseOpts (self : Options) (argv : List String) : Outcome :=
  parseLoop (argv.drop 1) self

end options

namespace app

open logger options

/-- The three configuration echo statements of `main` (lines 105 to 107). -/
def echoConfig (opts : Options) (out : List Output) : List Output :=
  let out := info ("Using model: " ++ opts.get "model" "default_model_path") out
  let out := info ("Using config: " ++ opts.get "config" "default_config_path") out
  info ("Log level: " ++ opts.get "log_level" "INFO") out

/-- The state of the inference loop: the `uint64_t` counter and standard output. -/
structure LoopState where
  counter : Nat
  out : List Output
  deriving DecidableEq

/-- One iteration of `while (true)`: log the counter, then `counter++` on a
64-bit unsigned integer. The sleep has no effect on the state. -/
def loopStep (s : LoopState) : LoopState :=
  let out := info ("Inference running... count: " ++ toString s.counter) s.out
  ⟨(s.counter + 1) % 2 ^ 64, out⟩

/-- The loop state after `n` iterations, from state `s`. -/
def loopRun : Nat → LoopState → LoopState
  | 0, s => s
  | n + 1, s => loopRun n (loopStep s)

/-- What an execution of `main` has done when it is observed. -/
inductive Run where
  | exited (code : Int) (out : List Output)
  | looping (s : LoopState)
  deriving DecidableEq

/-- The entry routine `main(argc, argv)`, observed either at `exit` or after `n`
iterations of the inference loop. -/
def main (argv : List String) (n : Nat) : Run :=
  let out := info "Starting inference application..." []
  match Options.empty.parseOpts argv with
  | Outcome.exited code printed => Run.exited code (out ++ printed.map Output.text)
  | Outcome.returned opts =>
    let out := echoConfig opts out
    let out := info "Init model done." out
    let out := info "Start inference loop." out
    Run.looping (loopRun n ⟨0, out⟩)

end app

/-! ## Notions used to state the properties of the scan -/

namespace options

/-- A token that, met in flag position with a token after it, takes that token
as its value: it begins with `--` and is not `--help`. -/
def takesValue (arg : String) : Bool :=
  decide (arg ≠ "--help") && beginsWithDashes arg

/-- Index `i` of the token sequence is in value position: the token right
before it takes a value and is itself not in value position. An index that
is not in value position is in flag position. -/
def consumedAsValue (tokens : List String) : Nat → Bool
  | 0 => false
  | i + 1 =>
    match tokens[i]? with
    | some arg => takesValue arg && !consumedAsValue tokens i
    | none => false

/-- The token sequence `--k1`, v1, ..., `--kn`, vn of a list of key/value pairs. -/
def pairTokens : List (String × String) → List String
  | [] => []
  | (key, value) :: pairs => ("--" ++ key) :: value :: pairTokens pairs

/-- The value of the last pair of the list whose key is `key`, if there is one. -/
def lastValue : List (String × String) → String → Option String
  | [], _ => none
  | (k, v) :: pairs, key =>
    match lastValue pairs key with
    | some later => some later
    | none => if k = key then some v else none

/-- The object after the statements `args[k] = v` for the pairs of the list, in order. -/
def assignAll (self : Options) (pairs : List (String × String)) : Options :=
  pairs.foldl (fun o p => ⟨o.args.assign p.1 p.2⟩) self

end options

namespace app

open logger options

/-- The message expected of iteration `k` of the inference loop (counting from 0):
the fixed text followed by the decimal rendering of `k mod 2 ^ 64`, at level INFO. -/
def loopMessage (k : Nat) : Output :=
  Output.line LogLevel.INFO ("Inference running... count: " ++ toString (k % 2 ^ 64))

/-- The three lines expected of the configuration echo step: for each of the keys
`model`, `config`, `log_level`, the stored value when there is one and the
stated default otherwise. -/
def echoLines (opts : Options) : List Output :=
  [ Output.line LogLevel.INFO
      ("Using model: " ++ (opts.args.find "model").getD "default_model_path"),
    Output.line LogLevel.INFO
      ("Using config: " ++ (opts.args.find "config").getD "default_config_path"),
    Output.line LogLevel.INFO
      ("Log level: " ++ (opts.args.find "log_level").getD "INFO") ]

/-- The log lines of `main` that do not depend on the options, before the loop. -/
def startLine : Output := Output.line LogLevel.INFO "Starting inference application..."

/-- The line logged once the simulated initialisation is done. -/
def initLine : Output := Output.line LogLevel.INFO "Init model done."

/-- The line announcing the loop. -/
def loopStartLine : Output := Output.line LogLevel.INFO "Start inference loop."

end app

/-! ## The map -/

namespace options

theorem StdMap.find_assign_same (m : StdMap) (key value : String) :
    (m.assign key value).find key = some value := by
  induction m with
  | nil => simp [StdMap.assign, StdMap.find]
  | cons e rest ih =>
    obtain ⟨k, v⟩ := e
    by_cases h : k = key
    · simp [StdMap.assign, StdMap.find, h]
    · simp [StdMap.assign, StdMap.find, h, ih]

theorem StdMap.find_assign_other (m : StdMap) (key value other : String) (h : other ≠ key) :
    (m.assign key value).find other = m.find other := by
  induction m with
  | nil => simp [StdMap.assign, StdMap.find, Ne.symm h]
  | cons e rest ih =>
    obtain ⟨k, v⟩ := e
    by_cases hk : k = key
    · subst hk
      simp [StdMap.assign, StdMap.find, Ne.symm h]
    · simp [StdMap.assign, StdMap.find, hk, ih]

theorem StdMap.find_assign (m : StdMap) (key value other : String) :
    (m.assign key value).find other = if key = other then some value else m.find other := by
  by_cases h : key = other
  · subst h
    simp [StdMap.find_assign_same]
  · simp [h, StdMap.find_assign_other m key value other (Ne.symm h)]

theorem StdMap.mem_keys_assign (m : StdMap) (key value other : String) :
    other ∈ (m.assign key value).keys ↔ other = key ∨ other ∈ m.keys := by
  induction m with
  | nil => simp [StdMap.assign, StdMap.keys]
  | cons e rest ih =>
    obtain ⟨k, v⟩ := e
    by_cases hk : k = key
    · subst hk
      simp [StdMap.assign, StdMap.keys]
    · simp only [StdMap.keys] at ih
      simp [StdMap.assign, StdMap.keys, hk, ih]
      tauto

theorem StdMap.nodup_keys_assign (m : StdMap) (key value : String) (h : m.keys.Nodup) :
    (m.assign key value).keys.Nodup := by
  induction m with
  | nil => simp [StdMap.assign, StdMap.keys]
  | cons e rest ih =>
    obtain ⟨k, v⟩ := e
    have hk : k ∉ StdMap.keys rest ∧ (StdMap.keys rest).Nodup := by
      simpa [StdMap.keys] using h
    by_cases hkey : k = key
    · subst hkey
      simpa [StdMap.assign, StdMap.keys] using h
    · have hnot : k ∉ StdMap.keys (StdMap.assign rest key value) := by
        rw [StdMap.mem_keys_assign]
        exact fun hc => hc.elim hkey hk.1
      have hrec := ih hk.2
      simp only [StdMap.keys] at hnot hrec
      simp [StdMap.assign, StdMap.keys, hkey, hnot, hrec]

theorem StdMap.find_eq_none_iff (m : StdMap) (key : String) :
    m.find key = none ↔ key ∉ m.keys := by
  induction m with
  | nil => simp [StdMap.find, StdMap.keys]
  | cons e rest ih =>
    obtain ⟨k, v⟩ := e
    simp only [StdMap.keys] at ih
    by_cases hk : k = key
    · simp [StdMap.find, StdMap.keys, hk]
    · simp [StdMap.find, StdMap.keys, hk, ih, Ne.symm hk]

/-! ## Tokens -/

theorem data_dashes (key : String) : ("--" ++ key).data = '-' :: '-' :: key.data := by
  simp [String.data_append]

theorem beginsWithDashes_dashes (key : String) : beginsWithDashes ("--" ++ key) = true := by
  simp [beginsWithDashes, data_dashes]

theorem substr2_dashes (key : String) : substr2 ("--" ++ key) = key := by
  simp [substr2, data_dashes]

theorem dashes_eq_help_iff (key : String) : "--" ++ key = "--help" ↔ key = "help" := by
  constructor
  · intro h
    have hd := congrArg String.data h
    rw [data_dashes] at hd
    have : key.data = "help".data := by simpa using hd
    exact String.ext this
  · rintro rfl
    rfl

theorem beginsWithDashes_help : beginsWithDashes "--help" = true := by decide

/-! ## Unfolding the scan -/

theorem parseLoop_nil (self : Options) : parseLoop [] self = Outcome.returned self := rfl

theorem parseLoop_cons (arg : String) (following : List String) (self : Options) :
    parseLoop (arg :: following) self =
      if arg = "--help" then
        Outcome.exited 0 Options.help
      else
        match beginsWithDashes arg, following with
        | true, value :: remaining =>
          parseLoop remaining ⟨self.args.assign (substr2 arg) value⟩
        | _, unconsumed => parseLoop unconsumed self := by
  rw [parseLoop.eq_def]

theorem parseLoop_help (following : List String) (self : Options) :
    parseLoop ("--help" :: following) self = Outcome.exited 0 Options.help := by
  rw [parseLoop_cons]
  exact if_pos rfl

theorem parseLoop_flag (arg value : String) (remaining : List String) (self : Options)
    (hne : arg ≠ "--help") (hb : beginsWithDashes arg = true) :
    parseLoop (arg :: value :: remaining) self
      = parseLoop remaining ⟨self.args.assign (substr2 arg) value⟩ := by
  simp [parseLoop_cons, hne, hb]

theorem parseLoop_alone (arg : String) (self : Options) (hne : arg ≠ "--help") :
    parseLoop [arg] self = Outcome.returned self := by
  cases hb : beginsWithDashes arg <;> simp [parseLoop_cons, parseLoop_nil, hne, hb]

theorem parseLoop_bare (arg : String) (following : List String) (self : Options)
    (hb : beginsWithDashes arg = false) :
    parseLoop (arg :: following) self = parseLoop following self := by
  have hne : arg ≠ "--help" := by
    rintro rfl
    simp [beginsWithDashes_help] at hb
  simp [parseLoop_cons, hne, hb]

end options

namespace options

/-! ## Induction along the scan -/

theorem takesValue_eq_true_iff (arg : String) :
    takesValue arg = true ↔ arg ≠ "--help" ∧ beginsWithDashes arg = true := by
  simp [takesValue]

theorem takesValue_help : takesValue "--help" = false := by decide

theorem takesValue_dashes (key : String) (h : key ≠ "help") :
    takesValue ("--" ++ key) = true := by
  rw [takesValue_eq_true_iff]
  exact ⟨fun hc => h ((dashes_eq_help_iff key).1 hc), beginsWithDashes_dashes key⟩

theorem parseLoop_ignored (arg : String) (following : List String) (self : Options)
    (h : takesValue arg = false) (hne : arg ≠ "--help") :
    parseLoop (arg :: following) self = parseLoop following self := by
  have hb : beginsWithDashes arg = false := by
    simpa [takesValue, hne] using h
  exact parseLoop_bare arg following self hb

theorem parseLoop_taken (arg value : String) (remaining : List String) (self : Options)
    (h : takesValue arg = true) :
    parseLoop (arg :: value :: remaining) self
      = parseLoop remaining ⟨self.args.assign (substr2 arg) value⟩ := by
  rw [takesValue_eq_true_iff] at h
  exact parseLoop_flag arg value remaining self h.1 h.2

/-- Case analysis following the branches of the loop body: end of the tokens,
`--help`, a flag with its value, a flag that is the last token, an ignored token. -/
theorem scan_induction {motive : List String → Prop}
    (nil : motive [])
    (help : ∀ following, motive ("--help" :: following))
    (taken : ∀ arg value remaining, takesValue arg = true → motive remaining →
      motive (arg :: value :: remaining))
    (alone : ∀ arg, takesValue arg = true → motive [arg])
    (ignored : ∀ arg following, arg ≠ "--help" → takesValue arg = false → motive following →
      motive (arg :: following))
    (tokens : List String) : motive tokens := by
  generalize hlen : tokens.length = n
  induction n using Nat.strong_induction_on generalizing tokens with
  | _ n ih =>
    match tokens, hlen with
    | [], _ => exact nil
    | arg :: following, hlen =>
      by_cases hhelp : arg = "--help"
      · subst hhelp
        exact help following
      · cases htv : takesValue arg with
        | false =>
          refine ignored arg following hhelp htv (ih following.length ?_ following rfl)
          simp at hlen
          omega
        | true =>
          match following, hlen with
          | [], _ => exact alone arg htv
          | value :: remaining, hlen =>
            refine taken arg value remaining htv (ih remaining.length ?_ remaining rfl)
            simp at hlen
            omega

/-! ## Flag and value positions -/

theorem consumedAsValue_zero (tokens : List String) : consumedAsValue tokens 0 = false := rfl

theorem consumedAsValue_succ (tokens : List String) (i : Nat) :
    consumedAsValue tokens (i + 1) =
      match tokens[i]? with
      | some arg => takesValue arg && !consumedAsValue tokens i
      | none => false := rfl

theorem consumedAsValue_cons_ignored (arg : String) (following : List String)
    (h : takesValue arg = false) (i : Nat) :
    consumedAsValue (arg :: following) (i + 1) = consumedAsValue following i := by
  induction i with
  | zero => simp [consumedAsValue_succ, consumedAsValue_zero, h]
  | succ i ih =>
    rw [consumedAsValue_succ, ih, consumedAsValue_succ following i]
    simp

theorem consumedAsValue_cons_taken (arg value : String) (remaining : List String)
    (h : takesValue arg = true) (i : Nat) :
    consumedAsValue (arg :: value :: remaining) (i + 2) = consumedAsValue remaining i := by
  induction i with
  | zero => simp [consumedAsValue_succ, consumedAsValue_zero, h]
  | succ i ih =>
    rw [consumedAsValue_succ, ih, consumedAsValue_succ remaining i]
    simp

theorem consumedAsValue_one_taken (arg : String) (following : List String)
    (h : takesValue arg = true) : consumedAsValue (arg :: following) 1 = true := by
  simp [consumedAsValue_succ, consumedAsValue_zero, h]

/-- The scan exits exactly when some `--help` token stands in flag position. -/
theorem parseLoop_exited_iff (tokens : List String) (self : Options) :
    parseLoop tokens self = Outcome.exited 0 Options.help ↔
      ∃ i, tokens[i]? = some "--help" ∧ consumedAsValue tokens i = false := by
  induction tokens using scan_induction generalizing self with
  | nil => simp [parseLoop_nil]
  | help following =>
    rw [parseLoop_help]
    exact ⟨fun _ => ⟨0, by simp, rfl⟩, fun _ => rfl⟩
  | taken arg value remaining htv ih =>
    rw [parseLoop_taken arg value remaining self htv, ih]
    have hne : arg ≠ "--help" := ((takesValue_eq_true_iff arg).1 htv).1
    constructor
    · rintro ⟨j, hj, hc⟩
      exact ⟨j + 2, by simpa using hj, by rw [consumedAsValue_cons_taken _ _ _ htv]; exact hc⟩
    · rintro ⟨i, hi, hc⟩
      match i, hi, hc with
      | 0, hi, _ => exact absurd (by simpa using hi) hne
      | 1, _, hc => rw [consumedAsValue_one_taken _ _ htv] at hc; exact absurd hc (by simp)
      | j + 2, hi, hc =>
        exact ⟨j, by simpa using hi, by rw [consumedAsValue_cons_taken _ _ _ htv] at hc; exact hc⟩
  | alone arg htv =>
    have hne : arg ≠ "--help" := ((takesValue_eq_true_iff arg).1 htv).1
    rw [parseLoop_alone arg self hne]
    constructor
    · intro h
      cases h
    · rintro ⟨i, hi, _⟩
      match i, hi with
      | 0, hi => exact absurd (by simpa using hi) hne
      | j + 1, hi => simp at hi
  | ignored arg following hne htv ih =>
    rw [parseLoop_ignored arg following self htv hne, ih]
    constructor
    · rintro ⟨j, hj, hc⟩
      exact ⟨j + 1, by simpa using hj, by rw [consumedAsValue_cons_ignored _ _ htv]; exact hc⟩
    · rintro ⟨i, hi, hc⟩
      match i, hi, hc with
      | 0, hi, _ => exact absurd (by simpa using hi) hne
      | j + 1, hi, hc =>
        exact ⟨j, by simpa using hi, by rw [consumedAsValue_cons_ignored _ _ htv] at hc; exact hc⟩

/-- The scan either exits through the help branch or returns. -/
theorem parseLoop_total (tokens : List String) (self : Options) :
    parseLoop tokens self = Outcome.exited 0 Options.help ∨
      ∃ result, parseLoop tokens self = Outcome.returned result := by
  induction tokens using scan_induction generalizing self with
  | nil => exact Or.inr ⟨self, rfl⟩
  | help following => exact Or.inl (parseLoop_help following self)
  | taken arg value remaining htv ih =>
    rw [parseLoop_taken arg value remaining self htv]
    exact ih _
  | alone arg htv =>
    exact Or.inr ⟨self, parseLoop_alone arg self ((takesValue_eq_true_iff arg).1 htv).1⟩
  | ignored arg following hne htv ih =>
    rw [parseLoop_ignored arg following self htv hne]
    exact ih _

end options

namespace options

/-! ## A trailing token in flag position -/

/-- A last token other than `--help` that the scan meets in flag position has no
value after it and changes nothing. -/
theorem parseLoop_append_last (args : List String) (t : String) (self : Options)
    (ht : t ≠ "--help") (hpos : consumedAsValue (args ++ [t]) args.length = false) :
    parseLoop (args ++ [t]) self = parseLoop args self := by
  induction args using scan_induction generalizing self with
  | nil => simpa [parseLoop_nil] using parseLoop_alone t self ht
  | help following =>
    rw [List.cons_append, parseLoop_help, parseLoop_help]
  | taken arg value remaining htv ih =>
    rw [List.cons_append, List.cons_append, parseLoop_taken _ _ _ _ htv,
      parseLoop_taken _ _ _ _ htv]
    apply ih
    rw [List.cons_append, List.cons_append, List.length_cons, List.length_cons,
      consumedAsValue_cons_taken _ _ _ htv] at hpos
    exact hpos
  | alone arg htv =>
    rw [List.cons_append, List.length_singleton, consumedAsValue_one_taken _ _ htv] at hpos
    exact absurd hpos (by simp)
  | ignored arg following hne htv ih =>
    rw [List.cons_append, parseLoop_ignored _ _ _ htv hne, parseLoop_ignored _ _ _ htv hne]
    apply ih
    rw [List.cons_append, List.length_cons, consumedAsValue_cons_ignored _ _ htv] at hpos
    exact hpos

/-! ## Sequences of well-formed pairs -/

theorem assignAll_nil (self : Options) : assignAll self [] = self := rfl

theorem assignAll_cons (self : Options) (p : String × String) (pairs : List (String × String)) :
    assignAll self (p :: pairs) = assignAll ⟨self.args.assign p.1 p.2⟩ pairs := rfl

theorem parseLoop_pairTokens (pairs : List (String × String)) (rest : List String)
    (self : Options) (h : ∀ p ∈ pairs, p.1 ≠ "help") :
    parseLoop (pairTokens pairs ++ rest) self = parseLoop rest (assignAll self pairs) := by
  induction pairs generalizing self with
  | nil => rfl
  | cons p pairs ih =>
    obtain ⟨key, value⟩ := p
    have hkey : key ≠ "help" := h (key, value) (List.mem_cons_self _ _)
    have htail : ∀ q ∈ pairs, q.1 ≠ "help" := fun q hq => h q (List.mem_cons_of_mem _ hq)
    rw [pairTokens, List.cons_append, List.cons_append,
      parseLoop_taken _ _ _ _ (takesValue_dashes key hkey), substr2_dashes, ih _ htail,
      assignAll_cons]

theorem find_assignAll (pairs : List (String × String)) (self : Options) (key : String) :
    (assignAll self pairs).args.find key =
      match lastValue pairs key with
      | some v => some v
      | none => self.args.find key := by
  induction pairs generalizing self with
  | nil => rfl
  | cons p pairs ih =>
    obtain ⟨k, v⟩ := p
    rw [assignAll_cons, ih, lastValue]
    cases lastValue pairs key with
    | some later => rfl
    | none =>
      by_cases hk : k = key
      · simp [hk, StdMap.find_assign_same]
      · simp [hk, StdMap.find_assign_other _ _ _ _ (Ne.symm hk)]

theorem nodup_keys_assignAll (pairs : List (String × String)) (self : Options)
    (h : self.args.keys.Nodup) : (assignAll self pairs).args.keys.Nodup := by
  induction pairs generalizing self with
  | nil => exact h
  | cons p pairs ih =>
    rw [assignAll_cons]
    exact ih _ (StdMap.nodup_keys_assign _ _ _ h)

theorem mem_keys_assignAll (pairs : List (String × String)) (self : Options) (key : String) :
    key ∈ (assignAll self pairs).args.keys ↔
      key ∈ pairs.map Prod.fst ∨ key ∈ self.args.keys := by
  induction pairs generalizing self with
  | nil => simp [assignAll_nil]
  | cons p pairs ih =>
    rw [assignAll_cons, ih, StdMap.mem_keys_assign]
    simp only [List.map_cons, List.mem_cons]
    tauto

theorem lastValue_eq_none (pairs : List (String × String)) (key : String)
    (h : key ∉ pairs.map Prod.fst) : lastValue pairs key = none := by
  induction pairs with
  | nil => rfl
  | cons p pairs ih =>
    obtain ⟨k, v⟩ := p
    simp only [List.map_cons, List.mem_cons, not_or] at h
    rw [lastValue, ih h.2]
    simp [Ne.symm h.1]

theorem lastValue_isSome (pairs : List (String × String)) (key : String)
    (h : key ∈ pairs.map Prod.fst) : ∃ v, lastValue pairs key = some v := by
  induction pairs with
  | nil => simp at h
  | cons p pairs ih =>
    obtain ⟨k, v⟩ := p
    rw [lastValue]
    cases hl : lastValue pairs key with
    | some later => exact ⟨later, rfl⟩
    | none =>
      by_cases hk : k = key
      · exact ⟨v, by simp [hk]⟩
      · simp only [List.map_cons, List.mem_cons] at h
        rcases h with h | h
        · exact absurd h.symm hk
        · obtain ⟨w, hw⟩ := ih h
          rw [hl] at hw
          cases hw

theorem lastValue_append_cons (before after : List (String × String)) (key value : String)
    (h : key ∉ after.map Prod.fst) :
    lastValue (before ++ (key, value) :: after) key = some value := by
  induction before with
  | nil => simp [lastValue, lastValue_eq_none after key h]
  | cons p before ih =>
    obtain ⟨k, v⟩ := p
    rw [List.cons_append, lastValue, ih]

/-! ## The tokens after the pairs -/

/-- Running the scan from two objects related key by key: where the first run ends
with a key set, so does the second, with the same value; where the first run
ends without the key, the second holds what `base` holds. -/
theorem parseLoop_returned_frame (rest : List String) (base x y result : Options)
    (hx : parseLoop rest x = Outcome.returned result)
    (hsome : ∀ k v, x.args.find k = some v → y.args.find k = some v)
    (hnone : ∀ k, x.args.find k = none → y.args.find k = base.args.find k) :
    ∃ result', parseLoop rest y = Outcome.returned result' ∧
      (∀ k v, result.args.find k = some v → result'.args.find k = some v) ∧
      (∀ k, result.args.find k = none → result'.args.find k = base.args.find k) := by
  induction rest using scan_induction generalizing x y with
  | nil =>
    rw [parseLoop_nil] at hx
    cases hx
    exact ⟨y, rfl, hsome, hnone⟩
  | help following =>
    rw [parseLoop_help] at hx
    cases hx
  | taken arg value remaining htv ih =>
    rw [parseLoop_taken _ _ _ _ htv] at hx
    rw [parseLoop_taken _ _ _ _ htv]
    refine ih _ _ hx ?_ ?_
    · intro k v hk
      rw [StdMap.find_assign] at hk ⊢
      by_cases hkey : substr2 arg = k
      · simpa [hkey] using hk
      · rw [if_neg hkey] at hk ⊢
        exact hsome k v hk
    · intro k hk
      rw [StdMap.find_assign] at hk ⊢
      by_cases hkey : substr2 arg = k
      · simp [hkey] at hk
      · rw [if_neg hkey] at hk ⊢
        exact hnone k hk
  | alone arg htv =>
    have hne : arg ≠ "--help" := ((takesValue_eq_true_iff arg).1 htv).1
    rw [parseLoop_alone arg x hne] at hx
    cases hx
    exact ⟨y, parseLoop_alone arg y hne, hsome, hnone⟩
  | ignored arg following hne htv ih =>
    rw [parseLoop_ignored _ _ _ htv hne] at hx
    rw [parseLoop_ignored _ _ _ htv hne]
    exact ih _ _ hx hsome hnone

end options

namespace app

open logger options

/-! ## The entry routine -/

theorem get_eq_getD (opts : Options) (key defaultValue : String) :
    opts.get key defaultValue = (opts.args.find key).getD defaultValue := by
  unfold Options.get
  cases opts.args.find key <;> rfl

theorem echoConfig_eq (opts : Options) (out : List Output) :
    echoConfig opts out = out ++ echoLines opts := by
  simp [echoConfig, echoLines, info, log, get_eq_getD]

theorem loopStep_eq (s : LoopState) :
    loopStep s = ⟨(s.counter + 1) % 2 ^ 64,
      s.out ++ [Output.line LogLevel.INFO
        ("Inference running... count: " ++ toString s.counter)]⟩ := rfl

theorem loopRun_succ (n : Nat) (s : LoopState) :
    loopRun (n + 1) s = loopStep (loopRun n s) := by
  induction n generalizing s with
  | zero => rfl
  | succ n ih =>
    rw [loopRun, ih (loopStep s)]
    rfl

theorem loopRun_from_zero (n : Nat) (out : List Output) :
    loopRun n ⟨0, out⟩ = ⟨n % 2 ^ 64, out ++ (List.range n).map loopMessage⟩ := by
  induction n with
  | zero => simp [loopRun]
  | succ n ih =>
    rw [loopRun_succ, ih, loopStep_eq]
    simp only [List.range_succ, List.map_append, List.map_cons, List.map_nil, loopMessage,
      List.append_assoc, Nat.mod_add_mod]

theorem main_returned (argv : List String) (opts : Options) (n : Nat)
    (h : Options.empty.parseOpts argv = Outcome.returned opts) :
    main argv n = Run.looping ⟨n % 2 ^ 64,
      startLine :: (echoLines opts ++ initLine :: loopStartLine ::
        (List.range n).map loopMessage)⟩ := by
  simp only [main, h, echoConfig_eq, info, log, loopRun_from_zero]
  simp [startLine, initLine, loopStartLine, echoLines]

theorem main_exited (argv : List String) (code : Int) (printed : List String) (n : Nat)
    (h : Options.empty.parseOpts argv = Outcome.exited code printed) :
    main argv n = Run.exited code (startLine :: printed.map Output.text) := by
  simp [main, h, info, log, startLine]

end app

/-! ## The claims -/

open logger options app

/-- C1, as stated, fails: in `--model --help` the token `--help` is the value of
`--model`; it is stored and the scan returns without exiting. -/
theorem help_as_value_does_not_exit :
    "--help" ∈ ["--model", "--help"] ∧
      Options.empty.parseOpts ["./inference_app", "--model", "--help"]
        = Outcome.returned ⟨[("model", "--help")]⟩ := by
  decide

/-- C1 (amended): whenever the argument sequence holds `--help` at an index in
flag position (not taken as the value of the token before it), `parseOpts` ends
the process with exit code 0 after printing the usage text, whatever the other
tokens are. -/
theorem parseOpts_exits_on_help_in_flag_position (prog : String) (tokens : List String)
    (self : Options) (i : Nat) (hi : tokens[i]? = some "--help")
    (hflag : consumedAsValue tokens i = false) :
    self.parseOpts (prog :: tokens) = Outcome.exited 0 Options.help :=
  (parseLoop_exited_iff tokens self).2 ⟨i, hi, hflag⟩

theorem parseOpts_exits_on_help_in_flag_position_witness :
    Options.empty.parseOpts
        ("./inference_app" :: ["input.bin", "--model", "--log", "--help", "--config"])
      = Outcome.exited 0 Options.help :=
  parseOpts_exits_on_help_in_flag_position "./inference_app"
    ["input.bin", "--model", "--log", "--help", "--config"] Options.empty 3
    (by decide) (by decide)

/-- C2, as stated, fails in three ways: a later pair with the same key overwrites
the value; a pair whose key is `help` ends the process; and the tokens after the
pairs can overwrite the value. -/
theorem get_after_pairs_not_always_value :
    (Options.empty.parseOpts ("./inference_app" :: (pairTokens [("a", "1"), ("a", "2")] ++ []))
        = Outcome.returned ⟨[("a", "2")]⟩ ∧
      Options.getOmitted ⟨[("a", "2")]⟩ "a" ≠ "1") ∧
    Options.empty.parseOpts ("./inference_app" :: (pairTokens [("help", "1")] ++ []))
        = Outcome.exited 0 Options.help ∧
    (Options.empty.parseOpts ("./inference_app" :: (pairTokens [("a", "1")] ++ ["--a", "3"]))
        = Outcome.returned ⟨[("a", "3")]⟩ ∧
      Options.getOmitted ⟨[("a", "3")]⟩ "a" ≠ "1") := by
  decide

/-- C2 (amended): for pairs none of whose keys is `help`, followed by tokens `rest`
whose own scan returns without storing the key `key`, after `parseOpts` runs on an
empty mapping over `--k1`, v1, ..., `--kn`, vn followed by `rest`, `get(key)`
returns the value `value` of each pair `(key, value)` that no later pair of the
list shares its key with. -/
theorem get_after_pairs (prog : String) (before after : List (String × String))
    (key value : String) (rest : List String) (restResult : Options)
    (hhelp : ∀ p ∈ before ++ (key, value) :: after, p.1 ≠ "help")
    (hlast : key ∉ after.map Prod.fst)
    (hrest : Options.empty.parseOpts (prog :: rest) = Outcome.returned restResult)
    (hfree : restResult.args.find key = none) :
    ∃ result,
      Options.empty.parseOpts (prog :: (pairTokens (before ++ (key, value) :: after) ++ rest))
        = Outcome.returned result ∧
      result.getOmitted key = value ∧ ∀ d, result.get key d = value := by
  have hscan := parseLoop_pairTokens (before ++ (key, value) :: after) rest Options.empty hhelp
  obtain ⟨result, hres, -, hnone⟩ :=
    parseLoop_returned_frame rest (assignAll Options.empty (before ++ (key, value) :: after))
      Options.empty (assignAll Options.empty (before ++ (key, value) :: after)) restResult hrest
      (fun k v hk => by simp [Options.empty, StdMap.find] at hk) (fun k _ => rfl)
  have hfind : result.args.find key = some value := by
    rw [hnone key hfree, find_assignAll, lastValue_append_cons before after key value hlast]
  refine ⟨result, ?_, ?_, ?_⟩
  · show parseLoop (pairTokens (before ++ (key, value) :: after) ++ rest) Options.empty = _
    rw [hscan, hres]
  · simp [Options.getOmitted, Options.get, hfind]
  · intro d
    simp [Options.get, hfind]

theorem get_after_pairs_witness :
    ∃ result,
      Options.empty.parseOpts ("./inference_app" ::
          (pairTokens ([("model", "a.bin")] ++ ("model", "b.bin") :: [("config", "--help")])
            ++ ["--log", "out.txt", "stray"]))
        = Outcome.returned result ∧
      result.getOmitted "model" = "b.bin" ∧ ∀ d, result.get "model" d = "b.bin" :=
  get_after_pairs "./inference_app" [("model", "a.bin")] [("config", "--help")]
    "model" "b.bin" ["--log", "out.txt", "stray"] ⟨[("log", "out.txt")]⟩
    (by decide) (by decide) (by decide) (by decide)

/-- C3: last write wins. For pairs whose keys all differ from `help`, parsed as
`--k1`, v1, ..., `--kn`, vn from an empty mapping, `parseOpts` returns; for every key
occurring among the pairs `get` returns the value of the last pair with that key;
and the mapping holds exactly one entry for each key that occurs and none for any
other key. -/
theorem last_write_wins (prog : String) (pairs : List (String × String))
    (hhelp : ∀ p ∈ pairs, p.1 ≠ "help") :
    ∃ result,
      Options.empty.parseOpts (prog :: pairTokens pairs) = Outcome.returned result ∧
      (∀ key, key ∈ pairs.map Prod.fst →
        ∃ value, lastValue pairs key = some value ∧ result.getOmitted key = value ∧
          ∀ d, result.get key d = value) ∧
      (∀ key, result.args.keys.count key = if key ∈ pairs.map Prod.fst then 1 else 0) := by
  have hscan := parseLoop_pairTokens pairs [] Options.empty hhelp
  rw [List.append_nil, parseLoop_nil] at hscan
  refine ⟨assignAll Options.empty pairs, hscan, ?_, ?_⟩
  · intro key hkey
    obtain ⟨value, hvalue⟩ := lastValue_isSome pairs key hkey
    have hfind : (assignAll Options.empty pairs).args.find key = some value := by
      rw [find_assignAll, hvalue]
    refine ⟨value, hvalue, ?_, ?_⟩
    · simp [Options.getOmitted, Options.get, hfind]
    · intro d
      simp [Options.get, hfind]
  · intro key
    have hnodup : (assignAll Options.empty pairs).args.keys.Nodup :=
      nodup_keys_assignAll pairs Options.empty (by simp [Options.empty, StdMap.keys])
    have hmem := mem_keys_assignAll pairs Options.empty key
    by_cases hkey : key ∈ pairs.map Prod.fst
    · rw [if_pos hkey]
      exact List.count_eq_one_of_mem hnodup (hmem.2 (Or.inl hkey))
    · rw [if_neg hkey]
      apply List.count_eq_zero_of_not_mem
      rw [hmem]
      simp [hkey, Options.empty, StdMap.keys]

theorem last_write_wins_witness :
    ∃ result,
      Options.empty.parseOpts
          ("./inference_app" :: pairTokens [("model", "a"), ("log", "x"), ("model", "b")])
        = Outcome.returned result ∧
      (∀ key, key ∈ [("model", "a"), ("log", "x"), ("model", "b")].map Prod.fst →
        ∃ value, lastValue [("model", "a"), ("log", "x"), ("model", "b")] key = some value ∧
          result.getOmitted key = value ∧ ∀ d, result.get key d = value) ∧
      (∀ key, result.args.keys.count key =
        if key ∈ [("model", "a"), ("log", "x"), ("model", "b")].map Prod.fst then 1 else 0) :=
  last_write_wins "./inference_app" [("model", "a"), ("log", "x"), ("model", "b")] (by decide)

/-- C4: `get(k, d)` returns the stored value when `k` is present and `d` when `k` is
absent; with the default omitted an absent key yields the empty string; and the
object after the call is the object before it. -/
theorem get_stored_or_default (self : Options) (key defaultValue : String) :
    (key ∈ self.args.keys →
      ∃ value, (key, value) ∈ self.args ∧ self.args.find key = some value ∧
        self.get key defaultValue = value) ∧
    (key ∉ self.args.keys → self.get key defaultValue = defaultValue) ∧
    (key ∉ self.args.keys → self.getOmitted key = "") ∧
    self.getCall key defaultValue = (self.get key defaultValue, self) := by
  have hmem : ∀ (m : StdMap) (v : String), m.find key = some v → (key, v) ∈ m := by
    intro m v
    induction m with
    | nil => simp [StdMap.find]
    | cons e rest ih =>
      obtain ⟨k, w⟩ := e
      by_cases hk : k = key
      · simp only [StdMap.find, hk, if_true, List.mem_cons, Option.some.injEq]
        rintro rfl
        exact Or.inl rfl
      · simp only [StdMap.find, hk, if_false, List.mem_cons]
        exact fun h => Or.inr (ih h)
  refine ⟨?_, ?_, ?_, rfl⟩
  · intro hkey
    cases hfind : self.args.find key with
    | none => exact absurd hkey ((StdMap.find_eq_none_iff _ _).1 hfind)
    | some value => exact ⟨value, hmem _ _ hfind, rfl, by simp [Options.get, hfind]⟩
  · intro hkey
    simp [Options.get, (StdMap.find_eq_none_iff _ _).2 hkey]
  · intro hkey
    simp [Options.getOmitted, Options.get, (StdMap.find_eq_none_iff _ _).2 hkey]

theorem get_stored_or_default_witness :
    (Options.get ⟨[("model", "foo.bin")]⟩ "model" "default_model_path" = "foo.bin") ∧
    (Options.get ⟨[("model", "foo.bin")]⟩ "config" "default_config_path"
      = "default_config_path") ∧
    (Options.getOmitted ⟨[("model", "foo.bin")]⟩ "config" = "") := by
  refine ⟨?_, ?_, ?_⟩
  · obtain ⟨value, hmem, -, hget⟩ :=
      (get_stored_or_default ⟨[("model", "foo.bin")]⟩ "model" "default_model_path").1
        (by decide)
    have hvalue : value = "foo.bin" := by simpa using hmem
    rw [hget, hvalue]
  · exact (get_stored_or_default ⟨[("model", "foo.bin")]⟩ "config"
      "default_config_path").2.1 (by decide)
  · decide

/-- C5, as stated, fails: after `--a` alone the token `--b` is taken as the value of
`--a`, so appending it changes the mapping. -/
theorem trailing_flag_can_be_stored :
    beginsWithDashes "--b" = true ∧ "--b" ≠ "--help" ∧
      Options.empty.parseOpts ("./inference_app" :: (["--a"] ++ ["--b"]))
        = Outcome.returned ⟨[("a", "--b")]⟩ ∧
      Options.empty.parseOpts ("./inference_app" :: ["--a"]) = Outcome.returned ⟨[]⟩ := by
  decide

/-- C5 (amended): for every argument sequence `args` and every token `t` that begins
with `--` and is not `--help`, when `t` as the final token stands in flag position
(it is not taken as the value of the token before it), parsing `args` followed by
`t` has the same outcome as parsing `args` alone: `t`, having no value after it,
stores nothing. -/
theorem trailing_flag_ignored (prog : String) (args : List String) (t : String)
    (self : Options) (hdashes : beginsWithDashes t = true) (hnot : t ≠ "--help")
    (hflag : consumedAsValue (args ++ [t]) args.length = false) :
    takesValue t = true ∧
      self.parseOpts (prog :: (args ++ [t])) = self.parseOpts (prog :: args) :=
  ⟨(takesValue_eq_true_iff t).2 ⟨hnot, hdashes⟩, parseLoop_append_last args t self hnot hflag⟩

theorem trailing_flag_ignored_witness :
    takesValue "--config" = true ∧
      Options.empty.parseOpts ("./inference_app" :: (["--model", "m.bin", "x"] ++ ["--config"]))
        = Options.empty.parseOpts ("./inference_app" :: ["--model", "m.bin", "x"]) :=
  trailing_flag_ignored "./inference_app" ["--model", "m.bin", "x"] "--config" Options.empty
    (by decide) (by decide) (by decide)

/-- C6: a token that does not begin with `--` is skipped: `parseOpts` over `t` followed
by `rest` has the outcome of `parseOpts` over `rest`; and a sequence made only of
such tokens leaves an empty mapping empty. -/
theorem bare_token_ignored (prog t : String) (rest bares : List String) (self : Options)
    (ht : beginsWithDashes t = false) (hbares : ∀ b ∈ bares, beginsWithDashes b = false) :
    self.parseOpts (prog :: t :: rest) = self.parseOpts (prog :: rest) ∧
      Options.empty.parseOpts (prog :: bares) = Outcome.returned Options.empty := by
  refine ⟨parseLoop_bare t rest self ht, ?_⟩
  show parseLoop bares Options.empty = _
  induction bares with
  | nil => rfl
  | cons b bares ih =>
    rw [parseLoop_bare b bares _ (hbares b (List.mem_cons_self _ _))]
    exact ih fun c hc => hbares c (List.mem_cons_of_mem _ hc)

theorem bare_token_ignored_witness :
    Options.empty.parseOpts ("./inference_app" :: "input.bin" :: ["--model", "m", "--help"])
        = Options.empty.parseOpts ("./inference_app" :: ["--model", "m", "--help"]) ∧
      Options.empty.parseOpts ("./inference_app" :: ["a", "-b", "", "- -c"])
        = Outcome.returned Options.empty :=
  bare_token_ignored "./inference_app" "input.bin" ["--model", "m", "--help"]
    ["a", "-b", "", "- -c"] Options.empty (by decide) (by decide)

/-- C7: when parsing does not exit, the configuration echo step emits exactly three
INFO messages, for `model`, `config`, `log_level` in this order, each reporting the
stored value when there is one and the default otherwise; they are the second to
fourth lines of the output of `main`. The arguments
`--model foo.bin --log_level DEBUG` report `foo.bin`, `default_config_path` and
`DEBUG`; no arguments report the three defaults. -/
theorem echo_reports_values_or_defaults (argv : List String) (opts : Options) (n : Nat)
    (out : List Output) (prog : String)
    (hparse : Options.empty.parseOpts argv = Outcome.returned opts) :
    echoConfig opts out = out ++ echoLines opts ∧
    (∃ s, main argv n = Run.looping s ∧ (s.out.drop 1).take 3 = echoLines opts) ∧
    (∃ parsed,
      Options.empty.parseOpts [prog, "--model", "foo.bin", "--log_level", "DEBUG"]
        = Outcome.returned parsed ∧
      echoConfig parsed out = out ++
        [ Output.line LogLevel.INFO "Using model: foo.bin",
          Output.line LogLevel.INFO "Using config: default_config_path",
          Output.line LogLevel.INFO "Log level: DEBUG" ]) ∧
    (∃ parsed,
      Options.empty.parseOpts [prog] = Outcome.returned parsed ∧
      echoConfig parsed out = out ++
        [ Output.line LogLevel.INFO "Using model: default_model_path",
          Output.line LogLevel.INFO "Using config: default_config_path",
          Output.line LogLevel.INFO "Log level: INFO" ]) := by
  refine ⟨echoConfig_eq opts out, ⟨_, main_returned argv opts n hparse, ?_⟩, ?_, ?_⟩
  · simp [echoLines]
  · have hscan : parseLoop ["--model", "foo.bin", "--log_level", "DEBUG"] Options.empty
        = Outcome.returned ⟨[("model", "foo.bin"), ("log_level", "DEBUG")]⟩ := by decide
    have hlines : echoLines ⟨[("model", "foo.bin"), ("log_level", "DEBUG")]⟩
        = [ Output.line LogLevel.INFO "Using model: foo.bin",
            Output.line LogLevel.INFO "Using config: default_config_path",
            Output.line LogLevel.INFO "Log level: DEBUG" ] := by decide
    exact ⟨_, hscan, by rw [echoConfig_eq, hlines]⟩
  · have hlines : echoLines Options.empty
        = [ Output.line LogLevel.INFO "Using model: default_model_path",
            Output.line LogLevel.INFO "Using config: default_config_path",
            Output.line LogLevel.INFO "Log level: INFO" ] := by decide
    exact ⟨Options.empty, rfl, by rw [echoConfig_eq, hlines]⟩

theorem echo_reports_values_or_defaults_witness :
    echoConfig ⟨[("config", "c.yaml")]⟩ [] = [] ++ echoLines ⟨[("config", "c.yaml")]⟩ ∧
    (∃ s, main ["./inference_app", "--config", "c.yaml"] 2 = Run.looping s ∧
      (s.out.drop 1).take 3 = echoLines ⟨[("config", "c.yaml")]⟩) :=
  have h := echo_reports_values_or_defaults ["./inference_app", "--config", "c.yaml"]
    ⟨[("config", "c.yaml")]⟩ 2 [] "./inference_app" (by decide)
  ⟨h.1, h.2.1⟩

/-- C8: in the inference loop the counter starts at 0; after `n` iterations it equals
`n mod 2 ^ 64` and exactly `n` loop messages have been appended to the output, the
`k`-th being `Inference running... count: ` followed by the decimal rendering of
`k mod 2 ^ 64`; each iteration emits one message with the current counter and then
adds 1 to the counter, modulo `2 ^ 64`. The same holds of the loop inside `main`,
which starts after six lines of output. -/
theorem loop_counter_and_messages (n : Nat) (out : List Output) (s : LoopState)
    (argv : List String) :
    (loopRun 0 ⟨0, out⟩).counter = 0 ∧
    (loopRun n ⟨0, out⟩).counter = n % 2 ^ 64 ∧
    (loopRun n ⟨0, out⟩).out = out ++ (List.range n).map loopMessage ∧
    ((List.range n).map loopMessage).length = n ∧
    loopRun (n + 1) ⟨0, out⟩ = loopStep (loopRun n ⟨0, out⟩) ∧
    (loopStep s).counter = (s.counter + 1) % 2 ^ 64 ∧
    (loopStep s).out = s.out ++
      [Output.line LogLevel.INFO ("Inference running... count: " ++ toString s.counter)] ∧
    (∀ opts, Options.empty.parseOpts argv = Outcome.returned opts →
      ∃ final, main argv n = Run.looping final ∧ final.counter = n % 2 ^ 64 ∧
        final.out.drop 6 = (List.range n).map loopMessage) := by
  refine ⟨rfl, ?_, ?_, by simp, loopRun_succ n _, rfl, rfl, ?_⟩
  · rw [loopRun_from_zero]
  · rw [loopRun_from_zero]
  · intro opts hparse
    refine ⟨_, main_returned argv opts n hparse, rfl, ?_⟩
    simp [echoLines]

theorem loop_counter_and_messages_witness :
    ∃ final, main ["./inference_app", "--model", "m.bin"] 3 = Run.looping final ∧
      final.counter = 3 % 2 ^ 64 ∧ final.out.drop 6 = (List.range 3).map loopMessage :=
  (loop_counter_and_messages 3 [] ⟨0, []⟩ ["./inference_app", "--model", "m.bin"]).2.2.2.2.2.2.2
    ⟨[("model", "m.bin")]⟩ (by decide)

/-- C9: the parsed options influence only the three echoed values. For two argument
vectors on which parsing does not exit, and any number of loop iterations, `main`
has emitted outputs of the same length, every item of which is a log line at level
INFO, equal at every position other than 1, 2 and 3 (the configuration echo
lines), the loop messages included; and the counters agree. -/
theorem options_influence_only_echo (argv₁ argv₂ : List String) (opts₁ opts₂ : Options)
    (n : Nat)
    (h₁ : Options.empty.parseOpts argv₁ = Outcome.returned opts₁)
    (h₂ : Options.empty.parseOpts argv₂ = Outcome.returned opts₂) :
    ∃ s₁ s₂, main argv₁ n = Run.looping s₁ ∧ main argv₂ n = Run.looping s₂ ∧
      s₁.counter = s₂.counter ∧
      s₁.out.length = s₂.out.length ∧
      s₁.out.map Output.level? = List.replicate (n + 6) (some LogLevel.INFO) ∧
      s₂.out.map Output.level? = List.replicate (n + 6) (some LogLevel.INFO) ∧
      (∀ i, i ≠ 1 → i ≠ 2 → i ≠ 3 → s₁.out[i]? = s₂.out[i]?) ∧
      s₁.out.drop 6 = (List.range n).map loopMessage ∧
      s₂.out.drop 6 = (List.range n).map loopMessage := by
  have hlevels : ∀ opts : Options,
      (startLine :: (echoLines opts ++ initLine :: loopStartLine ::
        (List.range n).map loopMessage)).map Output.level?
        = List.replicate (n + 6) (some LogLevel.INFO) := by
    intro opts
    have hloop : ((List.range n).map loopMessage).map Output.level?
        = List.replicate n (some LogLevel.INFO) := by
      rw [List.map_map, List.eq_replicate_iff]
      simp [loopMessage, Output.level?]
    simp only [List.map_cons, List.map_append, echoLines, hloop, startLine, initLine,
      loopStartLine, Output.level?, List.map_nil, List.cons_append, List.nil_append]
    rfl
  refine ⟨_, _, main_returned argv₁ opts₁ n h₁, main_returned argv₂ opts₂ n h₂, rfl, ?_,
    hlevels opts₁, hlevels opts₂, ?_, ?_, ?_⟩
  · simp [echoLines]
  · intro i h1 h2 h3
    match i, h1, h2, h3 with
    | 0, _, _, _ => rfl
    | 1, h1, _, _ => exact absurd rfl h1
    | 2, _, h2, _ => exact absurd rfl h2
    | 3, _, _, h3 => exact absurd rfl h3
    | j + 4, _, _, _ => simp [echoLines]
  · simp [echoLines]
  · simp [echoLines]

theorem options_influence_only_echo_witness :
    ∃ s₁ s₂, main ["./inference_app", "--log_level", "DEBUG", "--log", "f.txt"] 2
        = Run.looping s₁ ∧
      main ["./inference_app"] 2 = Run.looping s₂ ∧
      s₁.counter = s₂.counter ∧
      s₁.out.length = s₂.out.length ∧
      s₁.out.map Output.level? = List.replicate (2 + 6) (some LogLevel.INFO) ∧
      s₂.out.map Output.level? = List.replicate (2 + 6) (some LogLevel.INFO) ∧
      (∀ i, i ≠ 1 → i ≠ 2 → i ≠ 3 → s₁.out[i]? = s₂.out[i]?) ∧
      s₁.out.drop 6 = (List.range 2).map loopMessage ∧
      s₂.out.drop 6 = (List.range 2).map loopMessage :=
  options_influence_only_echo ["./inference_app", "--log_level", "DEBUG", "--log", "f.txt"]
    ["./inference_app"] ⟨[("log_level", "DEBUG"), ("log", "f.txt")]⟩ Options.empty 2
    (by decide) (by decide)

/-- C10: `parseOpts` exits through the help branch if and only if some `--help` token
stands in flag position, that is, at an index not taken as the value of the
token before it; otherwise it returns. A token in value position is never read
as a flag: for a key other than `help`, parsing `--key`, `--help` followed by `rest`
stores `key -> --help` (the object the scan goes on with reads `--help` back for
`key` and is unchanged at every other key), does not exit at that token (the
parse exits only on a `--help` in flag position inside `rest`), and goes on
scanning `rest`; when the scan of `rest` returns without storing `key`, the
parse returns an object in which `get(key)` is `--help`. -/
theorem exit_iff_help_in_flag_position (prog : String) (tokens : List String)
    (self : Options) (key : String) (rest : List String) (hkey : key ≠ "help") :
    (self.parseOpts (prog :: tokens) = Outcome.exited 0 Options.help ↔
      ∃ i, tokens[i]? = some "--help" ∧ consumedAsValue tokens i = false) ∧
    ((¬ ∃ i, tokens[i]? = some "--help" ∧ consumedAsValue tokens i = false) →
      ∃ result, self.parseOpts (prog :: tokens) = Outcome.returned result) ∧
    consumedAsValue (("--" ++ key) :: "--help" :: rest) 1 = true ∧
    self.parseOpts (prog :: ("--" ++ key) :: "--help" :: rest)
      = parseLoop rest ⟨self.args.assign key "--help"⟩ ∧
    (self.args.assign key "--help").find key = some "--help" ∧
    (∀ d, Options.get ⟨self.args.assign key "--help"⟩ key d = "--help") ∧
    (∀ other d, other ≠ key →
      Options.get ⟨self.args.assign key "--help"⟩ other d = self.get other d) ∧
    (self.parseOpts (prog :: ("--" ++ key) :: "--help" :: rest)
        = Outcome.exited 0 Options.help ↔
      ∃ i, rest[i]? = some "--help" ∧ consumedAsValue rest i = false) ∧
    (self.parseOpts [prog, "--" ++ key, "--help"]
      = Outcome.returned ⟨self.args.assign key "--help"⟩) ∧
    (∀ restResult, Options.empty.parseOpts (prog :: rest) = Outcome.returned restResult →
      restResult.args.find key = none →
      ∃ result,
        self.parseOpts (prog :: ("--" ++ key) :: "--help" :: rest) = Outcome.returned result ∧
        result.args.find key = some "--help" ∧
        result.getOmitted key = "--help" ∧ ∀ d, result.get key d = "--help") := by
  have hstep : ∀ following : List String,
      parseLoop (("--" ++ key) :: "--help" :: following) self
        = parseLoop following ⟨self.args.assign key "--help"⟩ := by
    intro following
    rw [parseLoop_taken _ _ _ _ (takesValue_dashes key hkey), substr2_dashes]
  have hstored : ∀ m : StdMap, (m.assign key "--help").find key = some "--help" := by
    intro m
    induction m with
    | nil => simp [StdMap.assign, StdMap.find]
    | cons e others ih =>
      obtain ⟨k, v⟩ := e
      by_cases hk : k = key
      · simp [StdMap.assign, StdMap.find, hk]
      · simp [StdMap.assign, StdMap.find, hk, ih]
  have hfind : (self.args.assign key "--help").find key = some "--help" := hstored self.args
  refine ⟨parseLoop_exited_iff tokens self, ?_, ?_, hstep rest, hfind, ?_, ?_, ?_, ?_, ?_⟩
  · intro hno
    rcases parseLoop_total tokens self with h | h
    · exact absurd ((parseLoop_exited_iff tokens self).1 h) hno
    · exact h
  · exact consumedAsValue_one_taken _ _ (takesValue_dashes key hkey)
  · intro d
    simp [Options.get, hfind]
  · intro other d hother
    simp [Options.get, StdMap.find_assign_other self.args key "--help" other hother]
  · show parseLoop (("--" ++ key) :: "--help" :: rest) self = _ ↔ _
    rw [hstep rest]
    exact parseLoop_exited_iff rest _
  · show parseLoop [("--" ++ key), "--help"] self = _
    rw [hstep [], parseLoop_nil]
  · intro restResult hrest hfree
    obtain ⟨result, hres, -, hnone⟩ :=
      parseLoop_returned_frame rest ⟨self.args.assign key "--help"⟩ Options.empty
        ⟨self.args.assign key "--help"⟩ restResult hrest
        (fun k v hk => by simp [Options.empty, StdMap.find] at hk) (fun k _ => rfl)
    have hresult : result.args.find key = some "--help" := by
      rw [hnone key hfree]
      exact hfind
    refine ⟨result, ?_, hresult, ?_, ?_⟩
    · show parseLoop (("--" ++ key) :: "--help" :: rest) self = _
      rw [hstep rest, hres]
    · simp [Options.getOmitted, Options.get, hresult]
    · intro d
      simp [Options.get, hresult]

theorem exit_iff_help_in_flag_position_witness :
    (Options.parseOpts ⟨[("log", "old.txt"), ("model", "m.bin")]⟩
          ("./inference_app" :: ["--a", "--b", "--help"])
        = Outcome.exited 0 Options.help ↔
      ∃ i, ["--a", "--b", "--help"][i]? = some "--help" ∧
        consumedAsValue ["--a", "--b", "--help"] i = false) ∧
    (∀ d, Options.get
      ⟨StdMap.assign [("log", "old.txt"), ("model", "m.bin")] "log" "--help"⟩ "log" d
        = "--help") ∧
    (∃ result,
      Options.parseOpts ⟨[("log", "old.txt"), ("model", "m.bin")]⟩
          ("./inference_app" :: ("--" ++ "log") :: "--help" :: ["--config", "c.yaml", "x"])
        = Outcome.returned result ∧
      result.args.find "log" = some "--help" ∧
      result.getOmitted "log" = "--help" ∧ ∀ d, result.get "log" d = "--help") :=
  have h := exit_iff_help_in_flag_position "./inference_app" ["--a", "--b", "--help"]
    ⟨[("log", "old.txt"), ("model", "m.bin")]⟩ "log" ["--config", "c.yaml", "x"] (by decide)
  ⟨h.1, h.2.2.2.2.2.1,
    h.2.2.2.2.2.2.2.2.2 ⟨[("config", "c.yaml")]⟩ (by decide) (by decide)⟩
